import Mathlib

/-!
Verification development for the fineworld voxel-world chunk pipeline.

The definitions below are a shallow embedding of the Rust sources:
  * `src/block/mod.rs` — `BlockType`, `is_transparent`, `UvMappings`;
  * `src/chunk/chunk.rs` — `Chunk`, `get_block`, `is_within_bounds`,
    `generate_terrain`, `construct_mesh`, `chunk_load_system`,
    `chunk_unload_system`;
  * `src/chunk/chunk_manager.rs` — `ChunkManager::break_block`,
    `handle_chunk_updates`, `chunk_load_system`, `chunk_unload_system`,
    `handle_generated_chunks_system`, `mesh_generation_system`.

Modelling conventions:
  * Rust `i32` values are embedded as `Int` (no arithmetic in the embedded
    fragment comes near the `i32` range limits); `u32` indices as `Nat`.
  * Rust `i32` division and remainder truncate toward zero and are embedded
    as `Int.tdiv` / `Int.tmod`.
  * The dense 32×32×32 block array `Vec<Vec<Vec<BlockType>>>` is embedded as
    a total function `IVec3 → BlockType` read and written only through the
    bounds-checked accessors, exactly as the source does.
  * Vertex coordinates are `f32` in the source but every value produced by
    the mesher is an integer lattice coordinate in `[0, 33]`, exactly
    representable in `f32`; they are embedded as `Int` triples.
  * UV coordinates are opaque payload copied from the mapping into the
    output buffer; they are embedded as an arbitrary type parameter `U`.
  * The 2-D OpenSimplex noise of the external `noise` crate (and the
    float arithmetic around a single sample) is embedded as an abstract
    function parameter `noise : seed → octave → world_x → world_z → Int`
    standing for `((OCTAVE_HEIGHT as f64 / octave as f64) *
    noise.get([wx / (500/octave), wz / (500/octave)])) as i32`.
  * Bevy `Entity` identifiers are embedded as `Nat`; the ECS hash maps
    `LoadedChunks` / `GeneratingChunks` and `queued_block_breaks` as
    association lists.
-/

namespace Fineworld

/-- Integer 3-vector mirroring `glam::IVec3` as used by the source. -/
structure IVec3 where
  x : Int
  y : Int
  z : Int
deriving DecidableEq

instance : Add IVec3 := ⟨fun a b => ⟨a.x + b.x, a.y + b.y, a.z + b.z⟩⟩
instance : Sub IVec3 := ⟨fun a b => ⟨a.x - b.x, a.y - b.y, a.z - b.z⟩⟩

@[simp] theorem IVec3.add_x (a b : IVec3) : (a + b).x = a.x + b.x := rfl
@[simp] theorem IVec3.add_y (a b : IVec3) : (a + b).y = a.y + b.y := rfl
@[simp] theorem IVec3.add_z (a b : IVec3) : (a + b).z = a.z + b.z := rfl
@[simp] theorem IVec3.sub_x (a b : IVec3) : (a - b).x = a.x - b.x := rfl
@[simp] theorem IVec3.sub_y (a b : IVec3) : (a - b).y = a.y - b.y := rfl
@[simp] theorem IVec3.sub_z (a b : IVec3) : (a - b).z = a.z - b.z := rfl

/-- Componentwise absolute value, mirroring `IVec3::abs`. -/
def IVec3.absv (v : IVec3) : IVec3 := ⟨|v.x|, |v.y|, |v.z|⟩

/-- Componentwise Rust `i32` division (truncating), mirroring `IVec3 / IVec3`. -/
def IVec3.rustDiv (a b : IVec3) : IVec3 :=
  ⟨Int.tdiv a.x b.x, Int.tdiv a.y b.y, Int.tdiv a.z b.z⟩

/-- Componentwise Rust `i32` remainder (sign of the dividend), mirroring `IVec3 % IVec3`. -/
def IVec3.rustRem (a b : IVec3) : IVec3 :=
  ⟨Int.tmod a.x b.x, Int.tmod a.y b.y, Int.tmod a.z b.z⟩

/-- Mathematical (flooring) componentwise division, used to state which chunk
actually contains a world position. -/
def IVec3.floorDiv (a b : IVec3) : IVec3 :=
  ⟨Int.fdiv a.x b.x, Int.fdiv a.y b.y, Int.fdiv a.z b.z⟩

/-- `const CHUNK_SIZE: IVec3 = IVec3::new(32, 32, 32);` (src/chunk/chunk.rs). -/
def CHUNK_SIZE : IVec3 := ⟨32, 32, 32⟩

/-- `const RENDER_DISTANCE: i32 = 3;` (src/chunk/chunk.rs, src/chunk/chunk_manager.rs). -/
def RENDER_DISTANCE : Int := 3

/-- Closed block-type enumeration from src/block/mod.rs. -/
inductive BlockType where
  | Air
  | Grass
  | Stone
  | Placeholder
deriving DecidableEq

/-- `BlockType::is_transparent`: true only for `Air` (src/block/mod.rs). -/
def BlockType.is_transparent (b : BlockType) : Bool := b = BlockType.Air

/-- The `Chunk` component (src/chunk/chunk.rs). The dense block array is
embedded as a total function consulted only at in-bounds positions. -/
structure Chunk where
  chunk_coords : IVec3
  world_seed : Nat
  blocks : IVec3 → BlockType

/-- `Chunk::is_within_bounds` (src/chunk/chunk.rs). -/
def Chunk.is_within_bounds (pos : IVec3) : Bool :=
  pos.x ≥ 0 && pos.x < CHUNK_SIZE.x &&
  pos.y ≥ 0 && pos.y < CHUNK_SIZE.y &&
  pos.z ≥ 0 && pos.z < CHUNK_SIZE.z

/-- `Chunk::get_block` (src/chunk/chunk.rs): bounds-checked read. -/
def Chunk.get_block (c : Chunk) (pos : IVec3) : Option BlockType :=
  if Chunk.is_within_bounds pos then some (c.blocks pos) else none

/-- Pointwise update of the embedded block array. -/
def updateBlocks (bs : IVec3 → BlockType) (pos : IVec3) (b : BlockType) :
    IVec3 → BlockType :=
  fun q => if q = pos then b else bs q

/-- Modelled from the spec: `Chunk::set_block` is called by
`handle_chunk_updates` (src/chunk/chunk_manager.rs line 65) but its
definition is not among the provided sources. Per spec §4.3, a drain step
"applies all queued mutations to their owning chunk's block array"; per
spec §3 any access outside `[0, CHUNK_SIZE)` per axis is out-of-bounds and
never resolved by wraparound or clamping, so, following the bounds-checked
pattern of `get_block_mut`, the write happens only within bounds. -/
def Chunk.set_block (c : Chunk) (pos : IVec3) (b : BlockType) : Chunk :=
  if Chunk.is_within_bounds pos then
    { c with blocks := updateBlocks c.blocks pos b }
  else c

/-- The iteration domain of `iter_blocks` / `iter_blocks_mut`
(src/chunk/chunk.rs): all local positions, x outermost, z innermost. -/
def allPositions : List IVec3 :=
  (List.range 32).flatMap fun x =>
    (List.range 32).flatMap fun y =>
      (List.range 32).map fun (z : Nat) =>
        ⟨(x : Int), (y : Int), (z : Int)⟩

/-- `Chunk::iter_blocks` (src/chunk/chunk.rs): every local position paired
with its block. -/
def Chunk.iter_blocks (c : Chunk) : List (IVec3 × BlockType) :=
  allPositions.map fun p => (p, c.blocks p)

theorem IVec3.ext_comp {a b : IVec3} (hx : a.x = b.x) (hy : a.y = b.y)
    (hz : a.z = b.z) : a = b := by
  cases a
  cases b
  simp_all

theorem mem_allPositions {p : IVec3} :
    p ∈ allPositions ↔ Chunk.is_within_bounds p = true := by
  simp only [allPositions, List.mem_flatMap, List.mem_map, List.mem_range]
  constructor
  · rintro ⟨x, hx, y, hy, z, hz, rfl⟩
    simp [Chunk.is_within_bounds, CHUNK_SIZE]
    omega
  · intro h
    simp [Chunk.is_within_bounds, CHUNK_SIZE] at h
    refine ⟨p.x.toNat, by omega, p.y.toNat, by omega, p.z.toNat, by omega, ?_⟩
    apply IVec3.ext_comp <;> simp <;> omega

theorem get_block_eq_some {c : Chunk} {p : IVec3}
    (h : Chunk.is_within_bounds p = true) :
    c.get_block p = some (c.blocks p) := by
  simp [Chunk.get_block, h]

theorem get_block_eq_none {c : Chunk} {p : IVec3}
    (h : Chunk.is_within_bounds p = false) :
    c.get_block p = none := by
  simp [Chunk.get_block, h]

/-! ## Terrain generation (`Chunk::generate_terrain`, src/chunk/chunk.rs) -/

/-- `const OCTAVES: i32 = 1;` inside `generate_terrain`. -/
def OCTAVES : Nat := 1

/-- `const OCTAVE_HEIGHT: i32 = 20;` inside `generate_terrain`. -/
def OCTAVE_HEIGHT : Int := 20

/-- The height value inserted into `height_map` for one column:
`(1..=OCTAVES).map(|octave| …noise sample…).sum::<i32>() + OCTAVE_HEIGHT`.
`sample` abstracts the float/noise computation for one octave (see the file
header); it is already seeded. -/
def heightAt (sample : Int → Int → Int → Int) (wx wz : Int) : Int :=
  (((List.range' 1 OCTAVES).map fun octave => sample (octave : Int) wx wz).sum)
    + OCTAVE_HEIGHT

/-- `Chunk::generate_terrain`: every block whose world height is at most the
column height becomes Grass; all other blocks are left untouched. `noise` is
the abstract seeded octave sampler family (indexed by the world seed used in
`OpenSimplex::new(self.world_seed)`). The per-column `height_map` keyed by
`(pos.x, pos.z)` is inlined as a function of the column. -/
def Chunk.generate_terrain (noise : Nat → Int → Int → Int → Int)
    (c : Chunk) : Chunk :=
  let sample := noise c.world_seed
  let chunk_world_y := c.chunk_coords.y * CHUNK_SIZE.y
  { c with
    blocks := allPositions.foldl (fun bs pos =>
      if pos.y + chunk_world_y ≤
          heightAt sample (pos.x + c.chunk_coords.x * CHUNK_SIZE.x)
            (pos.z + c.chunk_coords.z * CHUNK_SIZE.z)
      then updateBlocks bs pos BlockType.Grass
      else bs) c.blocks }

/-! ## Block breaking (`ChunkManager::break_block`, src/chunk/chunk_manager.rs) -/

/-- The `queued_block_breaks: HashMap<IVec3, Vec<IVec3>>` field of
`ChunkManager`, as an association list. -/
structure ChunkManager where
  queued_block_breaks : List (IVec3 × List IVec3)

/-- `entry(chunk).or_default().push(block)`: append `v` to the entry of `k`,
creating the entry when missing. -/
def pushEntry (l : List (IVec3 × List IVec3)) (k : IVec3) (v : IVec3) :
    List (IVec3 × List IVec3) :=
  match l with
  | [] => [(k, [v])]
  | (k2, vs) :: rest =>
      if k2 = k then (k2, vs ++ [v]) :: rest else (k2, vs) :: pushEntry rest k v

/-- `ChunkManager::break_block`: decompose the world position with Rust
truncating `/` and `%` by `CHUNK_SIZE` and queue the local position under the
chunk key. -/
def ChunkManager.break_block (m : ChunkManager) (world_pos : IVec3) :
    ChunkManager :=
  let chunk := world_pos.rustDiv CHUNK_SIZE
  let block := world_pos.rustRem CHUNK_SIZE
  { queued_block_breaks := pushEntry m.queued_block_breaks chunk block }

/-! ## The mesher (`Chunk::construct_mesh`, src/chunk/chunk.rs)

The six face directions, in the source's fixed order
Top, Front (+Z), Right (+X), Back (−Z), Left (−X), Bottom (−Y). The six
per-direction blocks of the source body are literally identical except for
the direction-specific offset, fallback coordinate, neighbor, vertex quad
and UV component, which are tabulated below. -/

inductive FaceDir where
  | top
  | front
  | right
  | back
  | left
  | bottom
deriving DecidableEq

/-- The order in which the source tests the six directions. -/
def dirsList : List FaceDir :=
  [.top, .front, .right, .back, .left, .bottom]

/-- The in-chunk probe offset of each direction
(`IVec3::Y`, `IVec3::Z`, `IVec3::X`, `IVec3::NEG_Z`, `IVec3::NEG_X`,
`IVec3::NEG_Y`). -/
def FaceDir.offset : FaceDir → IVec3
  | .top => ⟨0, 1, 0⟩
  | .front => ⟨0, 0, 1⟩
  | .right => ⟨1, 0, 0⟩
  | .back => ⟨0, 0, -1⟩
  | .left => ⟨-1, 0, 0⟩
  | .bottom => ⟨0, -1, 0⟩

/-- The fallback coordinate probed in the adjacent chunk when the in-chunk
probe is out of bounds, exactly as written in the source. -/
def FaceDir.wrapped (d : FaceDir) (pos : IVec3) : IVec3 :=
  match d with
  | .top => ⟨pos.x, 0, pos.z⟩
  | .front => ⟨pos.x, pos.y, 0⟩
  | .right => ⟨0, pos.y, pos.z⟩
  | .back => ⟨pos.x, pos.y, CHUNK_SIZE.z - 1⟩
  | .left => ⟨CHUNK_SIZE.x - 1, pos.y, pos.z⟩
  | .bottom => ⟨pos.x, CHUNK_SIZE.y - 1, pos.z⟩

/-- The six neighbor chunks handed to `construct_mesh`, in the order
Top, Front, Right, Back, Left, Bottom (`neighbors: [&Chunk; 6]`). -/
structure Neighbors where
  top : Chunk
  front : Chunk
  right : Chunk
  back : Chunk
  left : Chunk
  bottom : Chunk

/-- `neighbors[i]` for each direction. -/
def FaceDir.nbr (d : FaceDir) (n : Neighbors) : Chunk :=
  match d with
  | .top => n.top
  | .front => n.front
  | .right => n.right
  | .back => n.back
  | .left => n.left
  | .bottom => n.bottom

/-- The four vertices pushed for a face of the voxel at `pos`, in the order
written in the source (`fpos` is `pos`; `f32` lattice values as `Int`). -/
def FaceDir.verts (d : FaceDir) (pos : IVec3) : List (Int × Int × Int) :=
  match d with
  | .top =>
      [(pos.x, pos.y + 1, pos.z), (pos.x + 1, pos.y + 1, pos.z),
       (pos.x + 1, pos.y + 1, pos.z + 1), (pos.x, pos.y + 1, pos.z + 1)]
  | .front =>
      [(pos.x, pos.y + 1, pos.z + 1), (pos.x + 1, pos.y + 1, pos.z + 1),
       (pos.x + 1, pos.y, pos.z + 1), (pos.x, pos.y, pos.z + 1)]
  | .right =>
      [(pos.x + 1, pos.y + 1, pos.z + 1), (pos.x + 1, pos.y + 1, pos.z),
       (pos.x + 1, pos.y, pos.z), (pos.x + 1, pos.y, pos.z + 1)]
  | .back =>
      [(pos.x + 1, pos.y + 1, pos.z), (pos.x, pos.y + 1, pos.z),
       (pos.x, pos.y, pos.z), (pos.x + 1, pos.y, pos.z)]
  | .left =>
      [(pos.x, pos.y + 1, pos.z), (pos.x, pos.y + 1, pos.z + 1),
       (pos.x, pos.y, pos.z + 1), (pos.x, pos.y, pos.z)]
  | .bottom =>
      [(pos.x, pos.y, pos.z + 1), (pos.x + 1, pos.y, pos.z + 1),
       (pos.x + 1, pos.y, pos.z), (pos.x, pos.y, pos.z)]

/-- A 4-corner UV rectangle (`UVs = [[f32; 2]; 4]`); corner payload opaque. -/
structure Quad (U : Type) where
  c0 : U
  c1 : U
  c2 : U
  c3 : U

/-- The four corners in push order. -/
def Quad.toList {U : Type} (q : Quad U) : List U := [q.c0, q.c1, q.c2, q.c3]

/-- The `(top, side, bottom)` triple stored per block type in `UvMappings`. -/
structure UvTriple (U : Type) where
  topUv : Quad U
  sideUv : Quad U
  bottomUv : Quad U

/-- `UvMappings = HashMap<BlockType, (UVs, UVs, UVs)>` (src/block/mod.rs),
as a total function: per spec §7 a missing entry for a reachable block type
is a fatal configuration error (`expect("Texture not found")`), guaranteed
absent by an upstream loading phase. -/
def UvMappings (U : Type) := BlockType → UvTriple U

/-- The tuple component read for a face: `.0` for top, `.1` for the four
lateral directions, `.2` for bottom. -/
def FaceDir.uvQuad {U : Type} (d : FaceDir) (t : UvTriple U) : Quad U :=
  match d with
  | .top => t.topUv
  | .front => t.sideUv
  | .right => t.sideUv
  | .back => t.sideUv
  | .left => t.sideUv
  | .bottom => t.bottomUv

/-- The three output buffers accumulated by `construct_mesh` (`indicies`,
`vertecies`, `uvs`); the collider is built from the same `vertecies` and
`indicies` buffers. -/
structure MeshBufs (U : Type) where
  indicies : List Nat
  vertecies : List (Int × Int × Int)
  uvs : List U

/-- The neighbor probe for one direction:
`self.get_block(pos + off).or_else(|| neighbors[i].get_block(wrapped))`. -/
def neighborLookup (c : Chunk) (n : Neighbors) (pos : IVec3) (d : FaceDir) :
    Option BlockType :=
  (c.get_block (pos + d.offset)).orElse fun _ => (d.nbr n).get_block (d.wrapped pos)

/-- `…map(|block| block.is_transparent()).expect("You messed up")`: the
`expect` can only fire when both probes miss, which `neighborLookup_isSome`
below shows cannot happen for an iterated (in-bounds) position; the `getD`
default is therefore never taken. -/
def visibleDir (c : Chunk) (n : Neighbors) (pos : IVec3) (d : FaceDir) : Bool :=
  ((neighborLookup c n pos d).map BlockType.is_transparent).getD false

/-- One face emission: push 4 vertices, the 6 indices
`offset + {3,1,0, 3,2,1}` and the 4 UV corners. -/
def emitFace {U : Type} (t : UvTriple U) (pos : IVec3) (d : FaceDir)
    (bufs : MeshBufs U) : MeshBufs U :=
  let vertex_offset := bufs.vertecies.length
  { indicies := bufs.indicies ++
      [vertex_offset + 3, vertex_offset + 1, vertex_offset + 0,
       vertex_offset + 3, vertex_offset + 2, vertex_offset + 1]
    vertecies := bufs.vertecies ++ d.verts pos
    uvs := bufs.uvs ++ (d.uvQuad t).toList }

/-- The body of the per-voxel loop of `construct_mesh`: skip `Air`, skip a
voxel whose six probes are all opaque, then emit one face per visible
direction in the fixed order. -/
def processBlock {U : Type} (uv : UvMappings U) (c : Chunk) (n : Neighbors)
    (bufs : MeshBufs U) (pos : IVec3) : MeshBufs U :=
  if c.get_block pos = some BlockType.Air then bufs
  else if dirsList.all (fun d => !visibleDir c n pos d) then bufs
  else
    dirsList.foldl
      (fun b d =>
        if visibleDir c n pos d then emitFace (uv (c.blocks pos)) pos d b else b)
      bufs

/-- The buffers after the whole `for (pos, block) in self.iter_blocks()` loop. -/
def meshBuffers {U : Type} (uv : UvMappings U) (c : Chunk) (n : Neighbors) :
    MeshBufs U :=
  allPositions.foldl (processBlock uv c n) ⟨[], [], []⟩

/-- `Chunk::construct_mesh`: `None` when `indicies.len() == 0`, otherwise the
mesh and the trimesh collider built from the same buffers. -/
def Chunk.construct_mesh {U : Type} (c : Chunk) (uv : UvMappings U)
    (n : Neighbors) : Option (MeshBufs U) :=
  let bufs := meshBuffers uv c n
  if bufs.indicies = [] then none else some bufs

/-! Face-list characterization used to state the mesher claims. -/

/-- The faces the voxel at `pos` emits, in emission order. -/
def emittedFacesAt (c : Chunk) (n : Neighbors) (pos : IVec3) :
    List (IVec3 × FaceDir) :=
  if c.get_block pos = some BlockType.Air then []
  else (dirsList.filter (visibleDir c n pos)).map fun d => (pos, d)

/-- All faces emitted by one `construct_mesh` run, in emission order. -/
def emittedFaces (c : Chunk) (n : Neighbors) : List (IVec3 × FaceDir) :=
  allPositions.flatMap (emittedFacesAt c n)

/-- The index pattern of one face whose vertex offset is `o`. -/
def facePattern (o : Nat) : List Nat :=
  [o + 3, o + 1, o + 0, o + 3, o + 2, o + 1]

/-- The index buffer produced by `count` faces of 4 vertices each, the first
at vertex offset `start`. -/
def facePatterns (start : Nat) (count : Nat) : List Nat :=
  (List.range count).flatMap fun k => facePattern (start + 4 * k)

/-- Emission of one listed face into the buffers. -/
def appendFace {U : Type} (uv : UvMappings U) (c : Chunk) (bufs : MeshBufs U)
    (f : IVec3 × FaceDir) : MeshBufs U :=
  emitFace (uv (c.blocks f.1)) f.1 f.2 bufs

/-- Emission of a list of faces into the buffers, in order. -/
def appendFaces {U : Type} (uv : UvMappings U) (c : Chunk) (bufs : MeshBufs U)
    (fl : List (IVec3 × FaceDir)) : MeshBufs U :=
  fl.foldl (appendFace uv c) bufs

/-! ## Chunk lifecycle (src/chunk/chunk_manager.rs, src/chunk/chunk.rs) -/

/-- The integers of a Rust half-open range `lo..hi`, in iteration order. -/
def rangeInt (lo hi : Int) : List Int :=
  (List.range (hi - lo).toNat).map fun (i : Nat) => lo + (i : Int)

/-- `const LOAD_DISTANCE: i32 = RENDER_DISTANCE + 1;` inside
`chunk_load_system`. -/
def LOAD_DISTANCE : Int := RENDER_DISTANCE + 1

/-- The offsets visited by the triple loop of `chunk_load_system`:
`x in -LOAD_DISTANCE..LOAD_DISTANCE`, `y in -LOAD_DISTANCE/2..LOAD_DISTANCE/2`
(Rust truncating division), `z in -LOAD_DISTANCE..LOAD_DISTANCE`. -/
def loadOffsets : List IVec3 :=
  (rangeInt (-LOAD_DISTANCE) LOAD_DISTANCE).flatMap fun x =>
    (rangeInt (-(Int.tdiv LOAD_DISTANCE 2)) (Int.tdiv LOAD_DISTANCE 2)).flatMap fun y =>
      (rangeInt (-LOAD_DISTANCE) LOAD_DISTANCE).map fun (z : Int) =>
        ⟨x, y, z⟩

/-- The chunk coordinates for which one run of `chunk_load_system` spawns a
generation task: every visited coordinate not already a key of
`loaded_chunks` or `loading_chunks`. -/
def chunk_load_dispatched (focus : IVec3) (loaded generating : List IVec3) :
    List IVec3 :=
  (loadOffsets.map fun off => focus + off).filter fun c =>
    decide (c ∉ loaded ∧ c ∉ generating)

/-- The `RENDER_DISTANCE` shadowed locally inside `chunk_unload_system`
(the unload radius, 10). -/
def UNLOAD_RADIUS : Int := 10

/-- One run of `chunk_unload_system` over the loaded map: retain exactly the
entries whose componentwise absolute difference from the focus chunk does not
exceed the radius on any axis; the rest are despawned. -/
def chunk_unload_retained (focus : IVec3) (loaded : List (IVec3 × Nat)) :
    List (IVec3 × Nat) :=
  loaded.filter fun e =>
    let diff := (e.1 - focus).absv
    !(diff.x > UNLOAD_RADIUS || diff.y > UNLOAD_RADIUS || diff.z > UNLOAD_RADIUS)

/-- Chebyshev (max-axis) distance between chunk coordinates, used to state
the eviction claims. -/
def chebDist (a b : IVec3) : Int :=
  max |a.x - b.x| (max |a.y - b.y| |a.z - b.z|)

/-- Key lookup in an association-list map (`HashMap::get`). -/
def lookupCoord (l : List (IVec3 × Nat)) (c : IVec3) : Option Nat :=
  (l.find? fun e => decide (e.1 = c)).map Prod.snd

/-- The per-entity component state touched by the meshing and edit systems:
the `Chunk` itself, the `RequiresMeshGeneration` and `IsInitalMeshGeneration`
marker components, the attached mesh/collider (both built from the same
buffers), the `RigidBody::Fixed` marker and the `LoadedChunk` marker. -/
structure ChunkEnt (U : Type) where
  chunk : Chunk
  requiresMesh : Bool
  isInitial : Bool
  mesh : Option (MeshBufs U)
  collider : Option (MeshBufs U)
  rigidBody : Bool
  loadedMarker : Bool

/-- The `dirs` array of `mesh_generation_system`. -/
def meshDirs : List IVec3 :=
  [⟨0, 1, 0⟩, ⟨0, 0, 1⟩, ⟨1, 0, 0⟩, ⟨0, 0, -1⟩, ⟨-1, 0, 0⟩, ⟨0, -1, 0⟩]

/-- One chunk's step of `mesh_generation_system`
(src/chunk/chunk_manager.rs lines 181–235): for an entity with
`RequiresMeshGeneration`, look up the six axis neighbors in `loaded_chunks`;
if any coordinate is missing, return unchanged (retry next tick); fetch the
six `Chunk` components (`get_many`), returning unchanged if any entity lacks
one; then run `construct_mesh`, clear the flag, attach mesh/collider/rigid
body on `Some`, and resolve the initial-mesh marker. The `unwrap` after the
all-present check is embedded as `getD 0`, guarded by that check. -/
def meshGenStep {U : Type} (loaded : List (IVec3 × Nat))
    (chunkOf : Nat → Option Chunk) (uv : UvMappings U) (ent : ChunkEnt U) :
    ChunkEnt U :=
  if ent.requiresMesh = false then ent
  else
    let cc := ent.chunk.chunk_coords
    let ids := meshDirs.map fun dir => lookupCoord loaded (dir + cc)
    if ids.any Option.isNone then ent
    else
      match (ids.map fun i => chunkOf (i.getD 0)) with
      | [some tc, some fc, some rc, some bc, some lc, some boc] =>
          let constructed := ent.chunk.construct_mesh uv ⟨tc, fc, rc, bc, lc, boc⟩
          let e1 := { ent with requiresMesh := false }
          let e2 :=
            match constructed with
            | some m =>
                { e1 with mesh := some m, collider := some m, rigidBody := true }
            | none => e1
          if e2.isInitial then
            { e2 with isInitial := false, loadedMarker := true }
          else e2
      | _ => ent

/-- The resource state touched by `handle_chunk_updates`: the queued breaks,
the loaded map, the entity table and the count of emitted warnings. -/
structure ManagerState (U : Type) where
  queued_block_breaks : List (IVec3 × List IVec3)
  loaded : List (IVec3 × Nat)
  ents : Nat → ChunkEnt U
  warnings : Nat

/-- Pointwise update of the entity table. -/
def updateEnts {U : Type} (es : Nat → ChunkEnt U) (i : Nat) (v : ChunkEnt U) :
    Nat → ChunkEnt U :=
  fun j => if j = i then v else es j

/-- `HashSet::insert` on the `chunks_need_updating` accumulator. -/
def insertId (l : List Nat) (i : Nat) : List Nat :=
  if i ∈ l then l else i :: l

/-- The drain loop of `handle_chunk_updates`: for each drained entry, warn
and skip when the chunk coordinate is not loaded, otherwise apply every
queued break with `set_block(…, Air)` and remember the entity for
re-flagging. -/
def drainBreaks {U : Type} (loaded : List (IVec3 × Nat))
    (entries : List (IVec3 × List IVec3)) (ents : Nat → ChunkEnt U)
    (warnings : Nat) (needUpdating : List Nat) :
    (Nat → ChunkEnt U) × Nat × List Nat :=
  match entries with
  | [] => (ents, warnings, needUpdating)
  | (coord, blocks) :: rest =>
      match lookupCoord loaded coord with
      | none => drainBreaks loaded rest ents (warnings + 1) needUpdating
      | some eid =>
          let ent := ents eid
          let chunk :=
            blocks.foldl (fun ch b => ch.set_block b BlockType.Air) ent.chunk
          drainBreaks loaded rest
            (updateEnts ents eid { ent with chunk := chunk }) warnings
            (insertId needUpdating eid)

/-- The second loop of `handle_chunk_updates`: insert
`RequiresMeshGeneration` on every collected entity. -/
def flagAll {U : Type} (ents : Nat → ChunkEnt U) (ids : List Nat) :
    Nat → ChunkEnt U :=
  ids.foldl (fun es eid => updateEnts es eid { es eid with requiresMesh := true })
    ents

/-- `handle_chunk_updates` (src/chunk/chunk_manager.rs lines 44–79): drain
the whole queued-breaks map, then re-flag the mutated chunks. -/
def handle_chunk_updates {U : Type} (s : ManagerState U) : ManagerState U :=
  let res := drainBreaks s.loaded s.queued_block_breaks s.ents s.warnings []
  { queued_block_breaks := []
    loaded := s.loaded
    ents := flagAll res.1 res.2.2
    warnings := res.2.1 }

/-! ## The coordinate-set state machine (claim C9)

The resources `LoadedChunks` and `GeneratingChunks` viewed as coordinate
sets, together with the multiset of in-flight `GeneratingChunk` tasks. The
five lifecycle systems act on them as follows: `chunk_load_system` adds the
dispatched coordinates to the generating map and spawns one task each;
`handle_generated_chunks_system` consumes a finished task, removes its
coordinate from the generating map (`remove_entry(..).unwrap()`) and inserts
it into the loaded map; `handle_chunk_updates` and `mesh_generation_system`
do not touch either map; `chunk_unload_system` retains the loaded
coordinates within the unload radius. -/

structure LifeState where
  loaded : List IVec3
  generating : List IVec3
  tasks : List IVec3

/-- The coordinates one `chunk_load_system` run dispatches from `s`. -/
def dispatchBatch (focus : IVec3) (s : LifeState) : List IVec3 :=
  chunk_load_dispatched focus s.loaded s.generating

/-- HashMap insert on a coordinate key set. -/
def insertCoord (l : List IVec3) (c : IVec3) : List IVec3 :=
  if c ∈ l then l else c :: l

inductive LifeStep : LifeState → LifeState → Prop where
  | load (focus : IVec3) (s : LifeState) :
      LifeStep s
        ⟨s.loaded, dispatchBatch focus s ++ s.generating,
          dispatchBatch focus s ++ s.tasks⟩
  | complete (c : IVec3) (s : LifeState) (h : c ∈ s.tasks) :
      LifeStep s
        ⟨insertCoord s.loaded c, s.generating.erase c, s.tasks.erase c⟩
  | editDrain (s : LifeState) : LifeStep s s
  | meshGen (s : LifeState) : LifeStep s s
  | unload (focus : IVec3) (s : LifeState) :
      LifeStep s
        ⟨s.loaded.filter fun c =>
            let diff := (c - focus).absv
            !(diff.x > UNLOAD_RADIUS || diff.y > UNLOAD_RADIUS ||
              diff.z > UNLOAD_RADIUS),
          s.generating, s.tasks⟩

/-- States reachable from the empty initial state by lifecycle steps. -/
inductive ReachableLife : LifeState → Prop where
  | init : ReachableLife ⟨[], [], []⟩
  | step {s t : LifeState} : ReachableLife s → LifeStep s t → ReachableLife t

/-! ## Concrete instances used to evaluate the theorems on sample inputs -/

/-- A chunk at the origin whose blocks are all `Air`. -/
def airChunk : Chunk := ⟨⟨0, 0, 0⟩, 0, fun _ => BlockType.Air⟩

/-- A chunk at the origin whose blocks are all `Grass`. -/
def grassChunk : Chunk := ⟨⟨0, 0, 0⟩, 0, fun _ => BlockType.Grass⟩

/-- A trivial UV quad over the unit payload type. -/
def unitQuad : Quad Unit := ⟨(), (), (), ()⟩

/-- A trivial UV mapping over the unit payload type. -/
def unitUv : UvMappings Unit := fun _ => ⟨unitQuad, unitQuad, unitQuad⟩

/-- Six all-Air neighbors. -/
def airNeighbors : Neighbors :=
  ⟨airChunk, airChunk, airChunk, airChunk, airChunk, airChunk⟩

/-- Six all-Grass neighbors. -/
def grassNeighbors : Neighbors :=
  ⟨grassChunk, grassChunk, grassChunk, grassChunk, grassChunk, grassChunk⟩

/-- The constantly-zero abstract noise family. -/
def zeroNoise : Nat → Int → Int → Int → Int := fun _ _ _ _ => 0

/-- A sample entity state flagged for meshing. -/
def sampleEnt : ChunkEnt Unit :=
  ⟨grassChunk, true, true, none, none, false, false⟩

/-- A sample manager state: one loaded chunk at the origin (entity 5), one
queued break inside it and one queued break for an unloaded coordinate. -/
def sampleManagerState : ManagerState Unit :=
  { queued_block_breaks := [(⟨0, 0, 0⟩, [⟨1, 2, 3⟩]), (⟨9, 9, 9⟩, [⟨0, 0, 0⟩])]
    loaded := [(⟨0, 0, 0⟩, 5)]
    ents := fun _ => sampleEnt
    warnings := 0 }

/-- The lifecycle state after one load dispatch at the origin from the empty
initial state. -/
def sampleLifeState : LifeState :=
  ⟨[], dispatchBatch ⟨0, 0, 0⟩ ⟨[], [], []⟩ ++ [],
    dispatchBatch ⟨0, 0, 0⟩ ⟨[], [], []⟩ ++ []⟩

/-! ## Shared lemmas -/

theorem mem_rangeInt {lo hi a : Int} :
    a ∈ rangeInt lo hi ↔ lo ≤ a ∧ a < hi := by
  simp only [rangeInt, List.mem_map, List.mem_range]
  constructor
  · rintro ⟨i, hi, rfl⟩
    omega
  · intro h
    exact ⟨(a - lo).toNat, by omega, by omega⟩

theorem mem_loadOffsets {v : IVec3} :
    v ∈ loadOffsets ↔
      -4 ≤ v.x ∧ v.x < 4 ∧ -2 ≤ v.y ∧ v.y < 2 ∧ -4 ≤ v.z ∧ v.z < 4 := by
  have hd : LOAD_DISTANCE = 4 := by decide
  have hc : Int.tdiv 4 2 = (2 : Int) := by decide
  simp only [loadOffsets, hd, hc, List.mem_flatMap, List.mem_map, mem_rangeInt]
  constructor
  · rintro ⟨x, hx, y, hy, z, hz, rfl⟩
    simp_all
  · intro h
    exact ⟨v.x, by omega, v.y, by omega, v.z, by omega,
      IVec3.ext_comp rfl rfl rfl⟩

theorem mem_chunk_load_dispatched {focus c : IVec3}
    {loaded generating : List IVec3} :
    c ∈ chunk_load_dispatched focus loaded generating ↔
      (-4 ≤ c.x - focus.x ∧ c.x - focus.x < 4 ∧
       -2 ≤ c.y - focus.y ∧ c.y - focus.y < 2 ∧
       -4 ≤ c.z - focus.z ∧ c.z - focus.z < 4 ∧
       c ∉ loaded ∧ c ∉ generating) := by
  simp only [chunk_load_dispatched, List.mem_filter, List.mem_map,
    decide_eq_true_eq]
  constructor
  · rintro ⟨⟨off, hoff, rfl⟩, hl, hg⟩
    rw [mem_loadOffsets] at hoff
    simp only [IVec3.add_x, IVec3.add_y, IVec3.add_z]
    refine ⟨by omega, by omega, by omega, by omega, by omega, by omega, hl, hg⟩
  · rintro ⟨h1, h2, h3, h4, h5, h6, hl, hg⟩
    refine ⟨⟨c - focus, mem_loadOffsets.mpr (by simp; omega), ?_⟩, hl, hg⟩
    apply IVec3.ext_comp <;> simp

theorem chebDist_le_iff {a b : IVec3} {r : Int} :
    chebDist a b ≤ r ↔ |a.x - b.x| ≤ r ∧ |a.y - b.y| ≤ r ∧ |a.z - b.z| ≤ r := by
  simp [chebDist, max_le_iff, and_assoc]

theorem chebDist_lt_iff {a b : IVec3} {r : Int} :
    chebDist a b < r ↔ |a.x - b.x| < r ∧ |a.y - b.y| < r ∧ |a.z - b.z| < r := by
  simp [chebDist, max_lt_iff, and_assoc]

theorem lt_chebDist_iff {a b : IVec3} {r : Int} :
    r < chebDist a b ↔ r < |a.x - b.x| ∨ r < |a.y - b.y| ∨ r < |a.z - b.z| := by
  simp [chebDist, lt_max_iff]

/-! ## C10 — `ChunkManager::break_block` decomposition -/

/-- C10: `break_block` decomposes a world position with Rust truncating
division and remainder. For a position with all components non-negative the
queued local position is within `[0, CHUNK_SIZE)` per axis and the chunk key
agrees with flooring division; for the position `(-1, 0, 0)` the queued
local position has a negative component (outside `[0, CHUNK_SIZE)`) and the
chunk key disagrees with the flooring-division chunk containing the
position. -/
theorem break_block_decomposition :
    (∀ p : IVec3, 0 ≤ p.x → 0 ≤ p.y → 0 ≤ p.z →
      (ChunkManager.break_block ⟨[]⟩ p).queued_block_breaks =
        [(p.rustDiv CHUNK_SIZE, [p.rustRem CHUNK_SIZE])] ∧
      Chunk.is_within_bounds (p.rustRem CHUNK_SIZE) = true ∧
      p.rustDiv CHUNK_SIZE = p.floorDiv CHUNK_SIZE) ∧
    (∃ p : IVec3, p.x < 0 ∧
      (p.rustRem CHUNK_SIZE).x < 0 ∧
      Chunk.is_within_bounds (p.rustRem CHUNK_SIZE) = false ∧
      p.rustDiv CHUNK_SIZE ≠ p.floorDiv CHUNK_SIZE) := by
  constructor
  · intro p hx hy hz
    refine ⟨rfl, ?_, ?_⟩
    · have mx := Int.tmod_eq_emod hx (by norm_num : (0:Int) ≤ 32)
      have my := Int.tmod_eq_emod hy (by norm_num : (0:Int) ≤ 32)
      have mz := Int.tmod_eq_emod hz (by norm_num : (0:Int) ≤ 32)
      simp only [Chunk.is_within_bounds, IVec3.rustRem, CHUNK_SIZE,
        Bool.and_eq_true, decide_eq_true_eq, ge_iff_le]
      simp only [mx, my, mz]
      omega
    · have dx := Int.tdiv_eq_ediv hx (by norm_num : (0:Int) ≤ 32)
      have dy := Int.tdiv_eq_ediv hy (by norm_num : (0:Int) ≤ 32)
      have dz := Int.tdiv_eq_ediv hz (by norm_num : (0:Int) ≤ 32)
      have fx := Int.fdiv_eq_ediv p.x (by norm_num : (0:Int) ≤ 32)
      have fy := Int.fdiv_eq_ediv p.y (by norm_num : (0:Int) ≤ 32)
      have fz := Int.fdiv_eq_ediv p.z (by norm_num : (0:Int) ≤ 32)
      simp only [IVec3.rustDiv, IVec3.floorDiv, CHUNK_SIZE]
      rw [dx, dy, dz, fx, fy, fz]
  · exact ⟨⟨-1, 0, 0⟩, by decide, by decide, by decide, by decide⟩

/-! ## C1 — the load-dispatch cuboid -/

/-- C1 counterexample: with the focus chunk at the origin and nothing loaded
or generating, the coordinate `(-4, 0, 0)` is dispatched although it lies
outside the claimed cuboid `|x| < 4 ∧ |y| < 2 ∧ |z| < 4`. -/
theorem chunk_load_cuboid_counterexample :
    (⟨-4, 0, 0⟩ : IVec3) ∈ chunk_load_dispatched ⟨0, 0, 0⟩ [] [] ∧
    ¬(|(-4 : Int)| < 4 ∧ |(0 : Int)| < 2 ∧ |(0 : Int)| < 4) := by
  constructor
  · decide
  · decide

/-- C1 amended: with the focus chunk at the origin, one run of the chunk
load system dispatches generation for exactly the coordinates of the
half-open cuboid `-4 ≤ x < 4`, `-2 ≤ y < 2`, `-4 ≤ z < 4` that are not
already loaded or generating, and for no coordinate outside that cuboid. -/
theorem chunk_load_dispatched_characterization
    (loaded generating : List IVec3) (c : IVec3) :
    c ∈ chunk_load_dispatched ⟨0, 0, 0⟩ loaded generating ↔
      (-4 ≤ c.x ∧ c.x < 4 ∧ -2 ≤ c.y ∧ c.y < 2 ∧ -4 ≤ c.z ∧ c.z < 4 ∧
       c ∉ loaded ∧ c ∉ generating) := by
  rw [mem_chunk_load_dispatched]
  simp

/-! ## C8 — eviction radius and hysteresis -/

/-- C8: a loaded chunk is evicted by the unload system exactly when its
Chebyshev distance from the focus chunk exceeds the unload radius 10; a
chunk inside the load cuboid (radius 4) is never evicted in the same state;
and a chunk evicted at focus `f1` is not re-dispatched by the load system at
a focus `f2` less than the radius gap (10 − 4 = 6) away, so no chunk
oscillates loaded → unloaded → loaded across such a pair of ticks. -/
theorem chunk_unload_hysteresis :
    (∀ (focus : IVec3) (loaded : List (IVec3 × Nat)) (c : IVec3) (e : Nat),
      (c, e) ∈ chunk_unload_retained focus loaded ↔
        ((c, e) ∈ loaded ∧ chebDist c focus ≤ UNLOAD_RADIUS)) ∧
    (∀ (focus : IVec3) (loaded : List (IVec3 × Nat)) (off : IVec3) (e : Nat),
      off ∈ loadOffsets → (focus + off, e) ∈ loaded →
      (focus + off, e) ∈ chunk_unload_retained focus loaded) ∧
    (∀ (f1 f2 c : IVec3),
      chebDist c f1 > UNLOAD_RADIUS →
      chebDist f1 f2 < UNLOAD_RADIUS - LOAD_DISTANCE →
      ∀ (loaded generating : List IVec3),
        c ∉ chunk_load_dispatched f2 loaded generating) := by
  have hmem : ∀ (focus : IVec3) (loaded : List (IVec3 × Nat)) (c : IVec3)
      (e : Nat), (c, e) ∈ chunk_unload_retained focus loaded ↔
        ((c, e) ∈ loaded ∧ chebDist c focus ≤ UNLOAD_RADIUS) := by
    intro focus loaded c e
    simp only [chunk_unload_retained, List.mem_filter, IVec3.absv,
      UNLOAD_RADIUS, Bool.not_eq_true', Bool.or_eq_false_iff,
      decide_eq_false_iff_not, not_lt, chebDist_le_iff]
    constructor
    · rintro ⟨h1, h2⟩
      simp only [IVec3.sub_x, IVec3.sub_y, IVec3.sub_z] at h2
      exact ⟨h1, by omega, by omega, by omega⟩
    · rintro ⟨h1, h2, h3, h4⟩
      refine ⟨h1, ?_⟩
      simp only [IVec3.sub_x, IVec3.sub_y, IVec3.sub_z]
      omega
  refine ⟨hmem, ?_, ?_⟩
  · intro focus loaded off e hoff hl
    rw [hmem]
    refine ⟨hl, ?_⟩
    rw [mem_loadOffsets] at hoff
    rw [chebDist_le_iff]
    simp only [IVec3.add_x, IVec3.add_y, IVec3.add_z, UNLOAD_RADIUS]
    exact ⟨abs_le.mpr (by omega), abs_le.mpr (by omega), abs_le.mpr (by omega)⟩
  · intro f1 f2 c h1 h2 loaded generating hc
    rw [mem_chunk_load_dispatched] at hc
    rw [show UNLOAD_RADIUS - LOAD_DISTANCE = 6 from by decide] at h2
    rw [show (UNLOAD_RADIUS : Int) = 10 from rfl] at h1
    simp only [gt_iff_lt] at h1
    rw [lt_chebDist_iff] at h1
    rw [chebDist_lt_iff] at h2
    obtain ⟨hcx1, hcx2, hcy1, hcy2, hcz1, hcz2, -, -⟩ := hc
    obtain ⟨h2x, h2y, h2z⟩ := h2
    rw [abs_lt] at h2x h2y h2z
    rcases h1 with h1 | h1 | h1 <;> rw [lt_abs] at h1 <;> omega

/-- C8 witness: the chunk `(11,0,0)` is evicted with the focus at the origin
(Chebyshev distance 11 > 10) and is not re-dispatched after the focus moves
to `(5,0,0)` (a jitter of 5 < 6). -/
theorem chunk_unload_hysteresis_witness :
    chebDist ⟨11, 0, 0⟩ ⟨0, 0, 0⟩ > UNLOAD_RADIUS ∧
    chebDist ⟨0, 0, 0⟩ ⟨5, 0, 0⟩ < UNLOAD_RADIUS - LOAD_DISTANCE ∧
    (⟨11, 0, 0⟩ : IVec3) ∉ chunk_load_dispatched ⟨5, 0, 0⟩ [] [] :=
  ⟨by decide, by decide,
    chunk_unload_hysteresis.2.2 ⟨0, 0, 0⟩ ⟨5, 0, 0⟩ ⟨11, 0, 0⟩ (by decide)
      (by decide) [] []⟩

/-! ## C6 — meshing waits for all six neighbors -/

/-- C6: the mesh generation system attempts `construct_mesh` for a chunk
flagged for meshing only when all six axis-adjacent coordinates are keys of
the loaded set; when one of the six lookups misses, the step returns that
entity's state unchanged — the needs-mesh flag is kept, no mesh or collider
is gained, and the attempt recurs on a later tick. -/
theorem mesh_generation_missing_neighbor {U : Type}
    (loaded : List (IVec3 × Nat)) (chunkOf : Nat → Option Chunk)
    (uv : UvMappings U) (ent : ChunkEnt U)
    (hflag : ent.requiresMesh = true) (d : IVec3) (hd : d ∈ meshDirs)
    (hmiss : lookupCoord loaded (d + ent.chunk.chunk_coords) = none) :
    meshGenStep loaded chunkOf uv ent = ent := by
  have hany : ((meshDirs.map fun dir =>
      lookupCoord loaded (dir + ent.chunk.chunk_coords)).any Option.isNone)
        = true := by
    rw [List.any_eq_true]
    exact ⟨none, List.mem_map.mpr ⟨d, hd, hmiss⟩, rfl⟩
  simp [meshGenStep, hflag, hany]

/-- C6 witness: with an empty loaded map, the step leaves the sample flagged
entity untouched. -/
theorem mesh_generation_missing_neighbor_witness :
    meshGenStep [] (fun _ => none) unitUv sampleEnt = sampleEnt :=
  mesh_generation_missing_neighbor [] (fun _ => none) unitUv sampleEnt
    (by decide) ⟨0, 1, 0⟩ (by decide) rfl

/-! ## C4 — terrain generation height rule -/

theorem foldl_updateBlocks_cond (l : List IVec3) (cond : IVec3 → Prop)
    [DecidablePred cond] (v : BlockType) (bs : IVec3 → BlockType) (q : IVec3) :
    (l.foldl (fun bs2 p => if cond p then updateBlocks bs2 p v else bs2) bs) q
      = if q ∈ l ∧ cond q then v else bs q := by
  induction l generalizing bs with
  | nil => simp
  | cons p rest ih =>
    simp only [List.foldl_cons]
    rw [ih]
    by_cases hcq : cond q
    · by_cases hqr : q ∈ rest
      · simp [List.mem_cons, hqr, hcq]
      · by_cases hqp : q = p
        · subst hqp
          simp [List.mem_cons, hqr, hcq, updateBlocks]
        · rcases Decidable.em (cond p) with hcp | hcp <;>
            simp [List.mem_cons, hqr, hcq, hqp, updateBlocks, hcp]
    · by_cases hqp : q = p
      · subst hqp
        simp [hcq, updateBlocks]
      · rcases Decidable.em (cond p) with hcp | hcp <;>
          simp [hcq, hqp, updateBlocks, hcp]

/-- C4: after `generate_terrain` on a chunk whose blocks are all Air, the
voxel at an in-bounds local position `p` is Grass exactly when
`p.y + chunk_coords.y * CHUNK_SIZE.y` is at most the summed-octave noise
height of its column, and Air otherwise; consequently every block of a
generated chunk is either Air or Grass. -/
theorem generate_terrain_spec (noise : Nat → Int → Int → Int → Int)
    (c : Chunk)
    (hair : ∀ p, Chunk.is_within_bounds p = true → c.blocks p = BlockType.Air)
    (p : IVec3) (hp : Chunk.is_within_bounds p = true) :
    ((c.generate_terrain noise).blocks p =
      if p.y + c.chunk_coords.y * CHUNK_SIZE.y ≤
          heightAt (noise c.world_seed)
            (p.x + c.chunk_coords.x * CHUNK_SIZE.x)
            (p.z + c.chunk_coords.z * CHUNK_SIZE.z)
      then BlockType.Grass else BlockType.Air) ∧
    ((c.generate_terrain noise).blocks p = BlockType.Air ∨
     (c.generate_terrain noise).blocks p = BlockType.Grass) := by
  have hmem : p ∈ allPositions := mem_allPositions.mpr hp
  have hb : (c.generate_terrain noise).blocks p =
      if p ∈ allPositions ∧
          (p.y + c.chunk_coords.y * CHUNK_SIZE.y ≤
            heightAt (noise c.world_seed)
              (p.x + c.chunk_coords.x * CHUNK_SIZE.x)
              (p.z + c.chunk_coords.z * CHUNK_SIZE.z))
        then BlockType.Grass else c.blocks p := by
    simp only [Chunk.generate_terrain]
    exact foldl_updateBlocks_cond allPositions _ BlockType.Grass c.blocks p
  rw [hb, hair p hp]
  constructor
  · simp [hmem]
  · by_cases hcond : p.y + c.chunk_coords.y * CHUNK_SIZE.y ≤
        heightAt (noise c.world_seed)
          (p.x + c.chunk_coords.x * CHUNK_SIZE.x)
          (p.z + c.chunk_coords.z * CHUNK_SIZE.z)
    · simp [hmem, hcond]
    · simp [hcond]

/-- C4 witness: with the constantly-zero noise the column height is 20, so
the origin voxel of the generated origin chunk is Grass. -/
theorem generate_terrain_spec_witness :
    (airChunk.generate_terrain zeroNoise).blocks ⟨0, 0, 0⟩ =
      BlockType.Grass := by
  have h := (generate_terrain_spec zeroNoise airChunk (fun _ _ => rfl)
    ⟨0, 0, 0⟩ (by decide)).1
  rw [h]
  decide

/-! ## Mesher structure lemmas -/

theorem verts_length (d : FaceDir) (pos : IVec3) : (d.verts pos).length = 4 := by
  cases d <;> rfl

theorem quad_toList_length {U : Type} (q : Quad U) : q.toList.length = 4 := rfl

theorem foldl_filter_ite {α β : Type} (l : List α) (p : α → Bool)
    (g : α → β → β) (b : β) :
    l.foldl (fun acc a => if p a then g a acc else acc) b
      = (l.filter p).foldl (fun acc a => g a acc) b := by
  induction l generalizing b with
  | nil => rfl
  | cons x xs ih =>
    by_cases hx : p x = true <;> simp [List.filter_cons, hx, ih]

theorem processBlock_eq_appendFaces {U : Type} (uv : UvMappings U) (c : Chunk)
    (n : Neighbors) (bufs : MeshBufs U) (pos : IVec3) :
    processBlock uv c n bufs pos
      = appendFaces uv c bufs (emittedFacesAt c n pos) := by
  unfold processBlock emittedFacesAt
  by_cases ha : c.get_block pos = some BlockType.Air
  · simp [ha, appendFaces]
  · by_cases hall : dirsList.all (fun d => !visibleDir c n pos d) = true
    · have hnil : dirsList.filter (visibleDir c n pos) = [] := by
        rw [List.filter_eq_nil_iff]
        intro d hd
        have := List.all_eq_true.mp hall d hd
        simp at this
        simp [this]
      simp [ha, hall, hnil, appendFaces]
    · simp only [ha, if_false, hall]
      rw [foldl_filter_ite]
      unfold appendFaces
      rw [List.foldl_map]
      rfl

theorem appendFaces_append {U : Type} (uv : UvMappings U) (c : Chunk)
    (bufs : MeshBufs U) (l1 l2 : List (IVec3 × FaceDir)) :
    appendFaces uv c bufs (l1 ++ l2)
      = appendFaces uv c (appendFaces uv c bufs l1) l2 :=
  List.foldl_append _ _ _ _

theorem foldl_appendFaces_flatMap {U : Type} (uv : UvMappings U) (c : Chunk)
    (l : List IVec3) (f : IVec3 → List (IVec3 × FaceDir)) (bufs : MeshBufs U) :
    l.foldl (fun b p => appendFaces uv c b (f p)) bufs
      = appendFaces uv c bufs (l.flatMap f) := by
  induction l generalizing bufs with
  | nil => rfl
  | cons x xs ih => simp [List.flatMap_cons, appendFaces_append, ih]

theorem meshBuffers_eq_appendFaces {U : Type} (uv : UvMappings U) (c : Chunk)
    (n : Neighbors) :
    meshBuffers uv c n = appendFaces uv c ⟨[], [], []⟩ (emittedFaces c n) := by
  unfold meshBuffers emittedFaces
  rw [← foldl_appendFaces_flatMap]
  exact List.foldl_ext _ _ _
    (fun b p _ => processBlock_eq_appendFaces uv c n b p)

theorem facePatterns_cons (start : Nat) (n : Nat) :
    facePatterns start (n + 1)
      = facePattern start ++ facePatterns (start + 4) n := by
  unfold facePatterns
  rw [List.range_succ_eq_map, List.flatMap_cons, List.flatMap_map]
  have hfun : (fun a : Nat => facePattern (start + 4 * a.succ))
      = (fun k : Nat => facePattern (start + 4 + 4 * k)) := by
    funext k
    have h1 : start + 4 * Nat.succ k = start + 4 + 4 * k := by omega
    rw [h1]
  rw [hfun]
  have h0 : start + 4 * 0 = start := by omega
  rw [h0]

theorem facePatterns_length (start n : Nat) :
    (facePatterns start n).length = 6 * n := by
  induction n generalizing start with
  | zero => simp [facePatterns]
  | succ m ih =>
      rw [facePatterns_cons]
      simp [facePattern, ih]
      omega

theorem length_flatMap_const {α β : Type} (l : List α) (f : α → List β)
    (k : Nat) (h : ∀ x, (f x).length = k) :
    (l.flatMap f).length = k * l.length := by
  induction l with
  | nil => simp
  | cons x xs ih =>
      simp [List.flatMap_cons, ih, h]
      ring

theorem appendFaces_spec {U : Type} (uv : UvMappings U) (c : Chunk)
    (fl : List (IVec3 × FaceDir)) (bufs : MeshBufs U) :
    (appendFaces uv c bufs fl).vertecies
        = bufs.vertecies ++ fl.flatMap (fun f => f.2.verts f.1) ∧
    (appendFaces uv c bufs fl).uvs
        = bufs.uvs ++ fl.flatMap (fun f => (f.2.uvQuad (uv (c.blocks f.1))).toList) ∧
    (appendFaces uv c bufs fl).indicies
        = bufs.indicies ++ facePatterns bufs.vertecies.length fl.length := by
  induction fl generalizing bufs with
  | nil => simp [appendFaces, facePatterns]
  | cons f fl ih =>
    have hstep : appendFaces uv c bufs (f :: fl)
        = appendFaces uv c (appendFace uv c bufs f) fl := rfl
    obtain ⟨ihv, ihu, ihi⟩ := ih (appendFace uv c bufs f)
    have hlen : (appendFace uv c bufs f).vertecies.length
        = bufs.vertecies.length + 4 := by
      simp [appendFace, emitFace, verts_length]
    refine ⟨?_, ?_, ?_⟩
    · rw [hstep, ihv]
      simp [appendFace, emitFace, List.append_assoc]
    · rw [hstep, ihu]
      simp [appendFace, emitFace, List.append_assoc]
    · rw [hstep, ihi, hlen]
      simp only [List.length_cons, facePatterns_cons]
      simp [appendFace, emitFace, facePattern, List.append_assoc]

/-! ## C5 — per-face buffer layout -/

/-- C5: the buffers built by `construct_mesh` are exactly the concatenation,
over the emitted faces in emission order, of the four per-direction vertices
of each face, of the four corners of the UV quad selected from the chunk's
mapping entry for the face's block type (component 0 for top, 1 for the four
lateral directions, 2 for bottom), and of the six indices
`vertex_offset + {3,1,0, 3,2,1}` — the same pattern for every orientation,
the k-th face starting at vertex offset `4 k`; hence for `F` emitted faces
`vertecies.length = uvs.length = 4 F` and `indicies.length = 6 F`. -/
theorem construct_mesh_buffer_layout {U : Type} (uv : UvMappings U)
    (c : Chunk) (n : Neighbors) :
    (meshBuffers uv c n).vertecies
        = (emittedFaces c n).flatMap (fun f => f.2.verts f.1) ∧
    (meshBuffers uv c n).uvs
        = (emittedFaces c n).flatMap
            (fun f => (f.2.uvQuad (uv (c.blocks f.1))).toList) ∧
    (meshBuffers uv c n).indicies
        = facePatterns 0 (emittedFaces c n).length ∧
    (meshBuffers uv c n).vertecies.length = 4 * (emittedFaces c n).length ∧
    (meshBuffers uv c n).uvs.length = 4 * (emittedFaces c n).length ∧
    (meshBuffers uv c n).indicies.length = 6 * (emittedFaces c n).length := by
  obtain ⟨hv, hu, hi⟩ :=
    appendFaces_spec uv c (emittedFaces c n) (⟨[], [], []⟩ : MeshBufs U)
  rw [meshBuffers_eq_appendFaces]
  simp only at hv hu hi
  rw [hv, hu, hi]
  simp only [List.nil_append, List.length_nil]
  refine ⟨trivial, trivial, trivial, ?_, ?_, facePatterns_length 0 _⟩
  · exact length_flatMap_const _ _ 4
      (fun (f : IVec3 × FaceDir) => verts_length f.2 f.1)
  · exact length_flatMap_const _ _ 4
      (fun (f : IVec3 × FaceDir) => quad_toList_length _)

/-! ## Neighbor probe lemmas (C2, C3) -/

theorem wrapped_within_bounds (d : FaceDir) {p : IVec3}
    (hp : Chunk.is_within_bounds p = true) :
    Chunk.is_within_bounds (d.wrapped p) = true := by
  simp only [Chunk.is_within_bounds, CHUNK_SIZE, Bool.and_eq_true,
    decide_eq_true_eq, ge_iff_le] at hp
  cases d <;>
    simp only [FaceDir.wrapped, Chunk.is_within_bounds, CHUNK_SIZE,
      Bool.and_eq_true, decide_eq_true_eq, ge_iff_le] <;>
    omega

theorem neighborLookup_eq {c : Chunk} {n : Neighbors} {p : IVec3}
    (d : FaceDir) (hp : Chunk.is_within_bounds p = true) :
    neighborLookup c n p d =
      some (if Chunk.is_within_bounds (p + d.offset) = true
            then c.blocks (p + d.offset)
            else (d.nbr n).blocks (d.wrapped p)) := by
  unfold neighborLookup
  by_cases ho : Chunk.is_within_bounds (p + d.offset) = true
  · rw [get_block_eq_some ho, if_pos ho]
    rfl
  · have hf : Chunk.is_within_bounds (p + d.offset) = false := by
      simpa using ho
    rw [get_block_eq_none hf, if_neg ho]
    show (d.nbr n).get_block (d.wrapped p) = _
    rw [get_block_eq_some (wrapped_within_bounds d hp)]

theorem visibleDir_eq {c : Chunk} {n : Neighbors} {p : IVec3}
    (d : FaceDir) (hp : Chunk.is_within_bounds p = true) :
    visibleDir c n p d =
      BlockType.is_transparent
        (if Chunk.is_within_bounds (p + d.offset) = true
         then c.blocks (p + d.offset)
         else (d.nbr n).blocks (d.wrapped p)) := by
  unfold visibleDir
  rw [neighborLookup_eq d hp]
  rfl

theorem neighborLookup_isSome {c : Chunk} {n : Neighbors} {p : IVec3}
    (d : FaceDir) (hp : Chunk.is_within_bounds p = true) :
    (neighborLookup c n p d).isSome = true := by
  rw [neighborLookup_eq d hp]
  rfl

theorem mem_dirsList (d : FaceDir) : d ∈ dirsList := by
  cases d <;> decide

theorem mem_emittedFacesAt {c : Chunk} {n : Neighbors} {p : IVec3}
    {d : FaceDir} :
    (p, d) ∈ emittedFacesAt c n p ↔
      (c.get_block p ≠ some BlockType.Air ∧ visibleDir c n p d = true) := by
  unfold emittedFacesAt
  by_cases ha : c.get_block p = some BlockType.Air
  · simp [ha]
  · simp only [ha, if_false, List.mem_map, ne_eq, not_false_iff, true_and]
    constructor
    · rintro ⟨d2, hd2, heq⟩
      have hd2d : d2 = d := congrArg Prod.snd heq
      subst hd2d
      exact (List.mem_filter.mp hd2).2
    · intro hv
      exact ⟨d, List.mem_filter.mpr ⟨mem_dirsList d, hv⟩, rfl⟩

theorem mem_emittedFaces {c : Chunk} {n : Neighbors} {p : IVec3}
    {d : FaceDir} :
    (p, d) ∈ emittedFaces c n ↔
      p ∈ allPositions ∧ (p, d) ∈ emittedFacesAt c n p := by
  unfold emittedFaces
  rw [List.mem_flatMap]
  constructor
  · rintro ⟨q, hq, hmem⟩
    have hqp : q = p := by
      unfold emittedFacesAt at hmem
      split at hmem
      · simp at hmem
      · obtain ⟨d2, -, heq⟩ := List.mem_map.mp hmem
        exact congrArg Prod.fst heq
    subst hqp
    exact ⟨hq, hmem⟩
  · rintro ⟨h1, h2⟩
    exact ⟨p, h1, h2⟩

/-! ## C2 — the neighbor rule of face emission -/

/-- C2: for a non-Air voxel at an in-bounds position, each of the six
directional probes reads the in-chunk block at the offset position when that
position is in bounds and otherwise the adjacent chunk's block at the
wrapped local coordinate; the face in that direction is emitted iff that
probed block is transparent; and a voxel whose six probes are all opaque
contributes nothing to the buffers. -/
theorem construct_mesh_neighbor_rule {U : Type} (uv : UvMappings U)
    (c : Chunk) (n : Neighbors) (p : IVec3)
    (hp : Chunk.is_within_bounds p = true)
    (hb : c.blocks p ≠ BlockType.Air) :
    (∀ d : FaceDir,
      neighborLookup c n p d =
        some (if Chunk.is_within_bounds (p + d.offset) = true
              then c.blocks (p + d.offset)
              else (d.nbr n).blocks (d.wrapped p)) ∧
      ((p, d) ∈ emittedFaces c n ↔
        BlockType.is_transparent
          (if Chunk.is_within_bounds (p + d.offset) = true
           then c.blocks (p + d.offset)
           else (d.nbr n).blocks (d.wrapped p)) = true)) ∧
    ((∀ d : FaceDir, visibleDir c n p d = false) →
      ∀ bufs : MeshBufs U, processBlock uv c n bufs p = bufs) := by
  have hget : c.get_block p ≠ some BlockType.Air := by
    rw [get_block_eq_some hp]
    simp [hb]
  constructor
  · intro d
    refine ⟨neighborLookup_eq d hp, ?_⟩
    rw [mem_emittedFaces, mem_emittedFacesAt]
    rw [← visibleDir_eq d hp]
    constructor
    · rintro ⟨-, -, hv⟩
      exact hv
    · intro hv
      exact ⟨mem_allPositions.mpr hp, hget, hv⟩
  · intro hall bufs
    have h2 : dirsList.all (fun d => !visibleDir c n p d) = true := by
      rw [List.all_eq_true]
      intro d _
      simp [hall d]
    unfold processBlock
    rw [if_neg hget, if_pos h2]

/-- C2 witness: the top probe of the origin voxel of the all-Grass chunk is
read in-chunk at `(0,1,0)`. -/
theorem construct_mesh_neighbor_rule_witness :
    neighborLookup grassChunk airNeighbors ⟨0, 0, 0⟩ FaceDir.top =
      some (if Chunk.is_within_bounds
              ((⟨0, 0, 0⟩ : IVec3) + FaceDir.top.offset) = true
            then grassChunk.blocks ((⟨0, 0, 0⟩ : IVec3) + FaceDir.top.offset)
            else (FaceDir.top.nbr airNeighbors).blocks
              (FaceDir.top.wrapped ⟨0, 0, 0⟩)) :=
  ((construct_mesh_neighbor_rule unitUv grassChunk airNeighbors ⟨0, 0, 0⟩
    (by decide) (by decide)).1 FaceDir.top).1

/-! ## C3 — `None` exactly when no face is emitted -/

/-- C3: `construct_mesh` returns `None` exactly when zero faces are emitted;
in particular an all-Air chunk yields `None` with any neighbors, and a chunk
uniformly filled with one opaque block type whose six neighbors are likewise
uniformly that type yields `None`. -/
theorem construct_mesh_none_iff {U : Type} (uv : UvMappings U) (c : Chunk)
    (n : Neighbors) :
    (c.construct_mesh uv n = none ↔ emittedFaces c n = []) ∧
    ((∀ p, Chunk.is_within_bounds p = true → c.blocks p = BlockType.Air) →
      c.construct_mesh uv n = none) ∧
    (∀ b : BlockType, b.is_transparent = false →
      (∀ p, Chunk.is_within_bounds p = true → c.blocks p = b) →
      (∀ d : FaceDir, ∀ p, Chunk.is_within_bounds p = true →
        ((d.nbr n).blocks p = b)) →
      c.construct_mesh uv n = none) := by
  have hlen : (meshBuffers uv c n).indicies.length
      = 6 * (emittedFaces c n).length :=
    (construct_mesh_buffer_layout uv c n).2.2.2.2.2
  have hiff : c.construct_mesh uv n = none ↔ emittedFaces c n = [] := by
    unfold Chunk.construct_mesh
    by_cases hnil : (meshBuffers uv c n).indicies = []
    · rw [if_pos hnil]
      have h6 : 6 * (emittedFaces c n).length = 0 := by
        rw [← hlen, hnil]
        rfl
      have h0 : (emittedFaces c n).length = 0 := by omega
      simp [List.length_eq_zero.mp h0]
    · rw [if_neg hnil]
      have hne : (emittedFaces c n).length ≠ 0 := by
        intro h0
        apply hnil
        rw [← List.length_eq_zero, hlen, h0]
      constructor
      · intro h
        cases h
      · intro h
        rw [h] at hne
        simp at hne
  refine ⟨hiff, ?_, ?_⟩
  · intro hair
    rw [hiff]
    unfold emittedFaces
    rw [List.flatMap_eq_nil_iff]
    intro p hp
    have hb := hair p (mem_allPositions.mp hp)
    unfold emittedFacesAt
    rw [if_pos]
    rw [get_block_eq_some (mem_allPositions.mp hp), hb]
  · intro b hop hcb hnb
    rw [hiff]
    unfold emittedFaces
    rw [List.flatMap_eq_nil_iff]
    intro p hp
    have hpb := mem_allPositions.mp hp
    have hbp := hcb p hpb
    have hbAir : b ≠ BlockType.Air := by
      intro hEq
      rw [hEq] at hop
      simp [BlockType.is_transparent] at hop
    unfold emittedFacesAt
    rw [if_neg (by rw [get_block_eq_some hpb, hbp]; simp [hbAir])]
    have hfil : dirsList.filter (visibleDir c n p) = [] := by
      rw [List.filter_eq_nil_iff]
      intro d _
      rw [visibleDir_eq d hpb]
      by_cases ho : Chunk.is_within_bounds (p + d.offset) = true
      · rw [if_pos ho, hcb _ ho, hop]
        simp
      · rw [if_neg ho, hnb d _ (wrapped_within_bounds d hpb), hop]
        simp
    rw [hfil]
    rfl

/-- C3 witness: the all-Air chunk meshes to `None`. -/
theorem construct_mesh_none_iff_witness :
    airChunk.construct_mesh unitUv airNeighbors = none :=
  (construct_mesh_none_iff unitUv airChunk airNeighbors).2.1 (fun _ _ => rfl)

/-- C5 witness: for the all-Air chunk no face is emitted, so all three
buffers of `meshBuffers` are the empty concatenations over the empty face
list and have the lengths `4·0`, `4·0`, `6·0`. -/
theorem construct_mesh_buffer_layout_witness :
    (meshBuffers unitUv airChunk airNeighbors).vertecies.length
        = 4 * (emittedFaces airChunk airNeighbors).length ∧
    (meshBuffers unitUv airChunk airNeighbors).uvs.length
        = 4 * (emittedFaces airChunk airNeighbors).length ∧
    (meshBuffers unitUv airChunk airNeighbors).indicies.length
        = 6 * (emittedFaces airChunk airNeighbors).length :=
  ⟨(construct_mesh_buffer_layout unitUv airChunk airNeighbors).2.2.2.1,
   (construct_mesh_buffer_layout unitUv airChunk airNeighbors).2.2.2.2.1,
   (construct_mesh_buffer_layout unitUv airChunk airNeighbors).2.2.2.2.2⟩

/-! ## C7 — the block-edit drain -/

theorem set_block_blocks (ch : Chunk) (q : IVec3) (v : BlockType) (p : IVec3) :
    (ch.set_block q v).blocks p =
      if Chunk.is_within_bounds q = true ∧ p = q then v else ch.blocks p := by
  unfold Chunk.set_block updateBlocks
  by_cases hq : Chunk.is_within_bounds q = true
  · by_cases hp : p = q
    · simp [hq, hp]
    · simp [hq, hp]
  · simp [hq]

theorem foldl_set_block_air_preserved (l : List IVec3) (ch : Chunk)
    (p : IVec3) (h : ch.blocks p = BlockType.Air) :
    (l.foldl (fun ch2 b => ch2.set_block b BlockType.Air) ch).blocks p
      = BlockType.Air := by
  induction l generalizing ch with
  | nil => exact h
  | cons q rest ih =>
    apply ih
    rw [set_block_blocks]
    by_cases hc : Chunk.is_within_bounds q = true ∧ p = q
    · simp [hc]
    · simp [hc, h]

theorem foldl_set_block_air (l : List IVec3) (ch : Chunk) (p : IVec3)
    (hmem : p ∈ l) (hp : Chunk.is_within_bounds p = true) :
    (l.foldl (fun ch2 b => ch2.set_block b BlockType.Air) ch).blocks p
      = BlockType.Air := by
  induction l generalizing ch with
  | nil => cases hmem
  | cons q rest ih =>
    rw [List.foldl_cons]
    rcases List.mem_cons.mp hmem with hqp | hrest
    · by_cases hr : p ∈ rest
      · exact ih _ hr
      · apply foldl_set_block_air_preserved
        rw [set_block_blocks]
        subst hqp
        simp [hp]
    · exact ih _ hrest

theorem mem_insertId {l : List Nat} {i j : Nat} :
    j ∈ insertId l i ↔ (j = i ∨ j ∈ l) := by
  unfold insertId
  by_cases hi : i ∈ l
  · simp only [if_pos hi]
    constructor
    · exact Or.inr
    · rintro (rfl | h)
      · exact hi
      · exact h
  · simp [if_neg hi]

theorem flagAll_at {U : Type} (ids : List Nat) (ents : Nat → ChunkEnt U)
    (eid : Nat) :
    flagAll ents ids eid =
      if eid ∈ ids then { ents eid with requiresMesh := true }
      else ents eid := by
  induction ids generalizing ents with
  | nil => simp [flagAll]
  | cons i ids ih =>
    show flagAll (updateEnts ents i { ents i with requiresMesh := true }) ids eid
        = _
    rw [ih]
    by_cases hmem : eid ∈ ids
    · rw [if_pos hmem, if_pos (List.mem_cons.mpr (Or.inr hmem))]
      unfold updateEnts
      by_cases hei : eid = i
      · subst hei
        simp
      · simp [hei]
    · rw [if_neg hmem]
      unfold updateEnts
      by_cases hei : eid = i
      · subst hei
        simp [List.mem_cons]
      · simp [hei, List.mem_cons, hmem, hei]

theorem lookupCoord_inj {loaded : List (IVec3 × Nat)}
    (He : (loaded.map Prod.snd).Nodup) {k1 k2 : IVec3} {e : Nat}
    (h1 : lookupCoord loaded k1 = some e) (h2 : lookupCoord loaded k2 = some e) :
    k1 = k2 := by
  unfold lookupCoord at h1 h2
  rcases ho1 : loaded.find? fun en => decide (en.1 = k1) with - | en1
  · rw [ho1] at h1
    cases h1
  rcases ho2 : loaded.find? fun en => decide (en.1 = k2) with - | en2
  · rw [ho2] at h2
    cases h2
  rw [ho1] at h1
  rw [ho2] at h2
  have hm1 := List.mem_of_find?_eq_some ho1
  have hm2 := List.mem_of_find?_eq_some ho2
  have hk1 : en1.1 = k1 := by
    have := List.find?_some ho1
    simpa using this
  have hk2 : en2.1 = k2 := by
    have := List.find?_some ho2
    simpa using this
  have he1 : en1.2 = e := by simpa using h1
  have he2 : en2.2 = e := by simpa using h2
  have : en1 = en2 := by
    apply List.inj_on_of_nodup_map He hm1 hm2
    rw [he1, he2]
  rw [← hk1, ← hk2, this]

theorem drainBreaks_untargeted {U : Type} (loaded : List (IVec3 × Nat)) :
    ∀ (entries : List (IVec3 × List IVec3)) (ents : Nat → ChunkEnt U)
      (w : Nat) (need : List Nat) (eid : Nat),
    (∀ e ∈ entries, lookupCoord loaded e.1 ≠ some eid) →
    ((drainBreaks loaded entries ents w need).1 eid = ents eid ∧
     (eid ∈ (drainBreaks loaded entries ents w need).2.2 ↔ eid ∈ need)) := by
  intro entries
  induction entries with
  | nil => intro ents w need eid _; exact ⟨rfl, Iff.rfl⟩
  | cons e rest ih =>
    intro ents w need eid hno
    obtain ⟨k, bl⟩ := e
    have hknot : lookupCoord loaded k ≠ some eid :=
      hno (k, bl) (List.mem_cons_self _ _)
    have hrest : ∀ e2 ∈ rest, lookupCoord loaded e2.1 ≠ some eid :=
      fun e2 he2 => hno e2 (List.mem_cons_of_mem _ he2)
    rcases hlk : lookupCoord loaded k with - | e2
    · show ((drainBreaks loaded ((k, bl) :: rest) ents w need).1 eid = _ ∧ _)
      unfold drainBreaks
      rw [hlk]
      exact ih ents (w + 1) need eid hrest
    · have hne : e2 ≠ eid := by
        intro h
        exact hknot (h ▸ hlk)
      unfold drainBreaks
      rw [hlk]
      obtain ⟨ih1, ih2⟩ := ih
        (updateEnts ents e2
          { ents e2 with
            chunk := bl.foldl (fun ch b => ch.set_block b BlockType.Air)
              (ents e2).chunk }) w (insertId need e2) eid hrest
      refine ⟨?_, ?_⟩
      · rw [ih1]
        unfold updateEnts
        simp [hne.symm]
      · rw [ih2, mem_insertId]
        constructor
        · rintro (rfl | h)
          · exact absurd rfl hne
          · exact h
        · exact Or.inr

theorem drainBreaks_warnings {U : Type} (loaded : List (IVec3 × Nat)) :
    ∀ (entries : List (IVec3 × List IVec3)) (ents : Nat → ChunkEnt U)
      (w : Nat) (need : List Nat),
    (drainBreaks loaded entries ents w need).2.1 =
      w + entries.countP (fun e => (lookupCoord loaded e.1).isNone) := by
  intro entries
  induction entries with
  | nil => intro ents w need; simp [drainBreaks]
  | cons e rest ih =>
    intro ents w need
    obtain ⟨k, bl⟩ := e
    rcases hlk : lookupCoord loaded k with - | e2
    · unfold drainBreaks
      rw [hlk, ih]
      simp [List.countP_cons, hlk]
      omega
    · unfold drainBreaks
      rw [hlk, ih]
      simp [List.countP_cons, hlk]

theorem drainBreaks_target {U : Type} (loaded : List (IVec3 × Nat))
    (He : (loaded.map Prod.snd).Nodup) :
    ∀ (entries : List (IVec3 × List IVec3)) (ents : Nat → ChunkEnt U)
      (w : Nat) (need : List Nat) (coord : IVec3) (blocks : List IVec3)
      (eid : Nat),
    (entries.map Prod.fst).Nodup →
    (coord, blocks) ∈ entries →
    lookupCoord loaded coord = some eid →
    ((drainBreaks loaded entries ents w need).1 eid =
      { ents eid with
        chunk := blocks.foldl (fun ch b => ch.set_block b BlockType.Air)
          (ents eid).chunk } ∧
     eid ∈ (drainBreaks loaded entries ents w need).2.2) := by
  intro entries
  induction entries with
  | nil => intro ents w need coord blocks eid _ hmem; cases hmem
  | cons e rest ih =>
    intro ents w need coord blocks eid hnd hmem hlook
    obtain ⟨k, bl⟩ := e
    have hndrest : (rest.map Prod.fst).Nodup := (List.nodup_cons.mp hnd).2
    rcases List.mem_cons.mp hmem with heq | hrest
    · injection heq with hk hbl
      subst hk
      subst hbl
      unfold drainBreaks
      rw [hlook]
      have hnotarget : ∀ e2 ∈ rest, lookupCoord loaded e2.1 ≠ some eid := by
        intro e2 he2 hcon
        have hEq : e2.1 = coord := lookupCoord_inj He hcon hlook
        have hk1 : coord ∉ rest.map Prod.fst := (List.nodup_cons.mp hnd).1
        exact hk1 (hEq ▸ List.mem_map_of_mem Prod.fst he2)
      obtain ⟨h1, h2⟩ := drainBreaks_untargeted loaded rest
        (updateEnts ents eid
          { ents eid with
            chunk := blocks.foldl (fun ch b => ch.set_block b BlockType.Air)
              (ents eid).chunk }) w (insertId need eid) eid hnotarget
      refine ⟨?_, ?_⟩
      · rw [h1]
        unfold updateEnts
        simp
      · rw [h2, mem_insertId]
        exact Or.inl rfl
    · have hkc : k ≠ coord := by
        intro hkk
        have hk1 : k ∉ rest.map Prod.fst := (List.nodup_cons.mp hnd).1
        exact hk1 (hkk ▸ List.mem_map_of_mem Prod.fst hrest)
      rcases hlk : lookupCoord loaded k with - | e2
      · unfold drainBreaks
        rw [hlk]
        exact ih ents (w + 1) need coord blocks eid hndrest hrest hlook
      · have hne : e2 ≠ eid := by
          intro hcon
          exact hkc (lookupCoord_inj He (hcon ▸ hlk) hlook)
        unfold drainBreaks
        rw [hlk]
        obtain ⟨h1, h2⟩ := ih
          (updateEnts ents e2
            { ents e2 with
              chunk := bl.foldl (fun ch b => ch.set_block b BlockType.Air)
                (ents e2).chunk }) w (insertId need e2) coord blocks eid
          hndrest hrest hlook
        have hsame : updateEnts ents e2
            { ents e2 with
              chunk := bl.foldl (fun ch b => ch.set_block b BlockType.Air)
                (ents e2).chunk } eid = ents eid := by
          unfold updateEnts
          simp [hne.symm]
        rw [hsame] at h1
        exact ⟨h1, h2⟩

/-- C7: one run of the block-edit drain empties the whole queued-breaks map;
for a drained entry whose coordinate is loaded, every queued in-bounds local
position of that entry is set to Air in the owning chunk's block array (the
chunk becomes exactly the fold of `set_block(…, Air)` over the entry) and
the chunk is re-flagged `RequiresMeshGeneration` with its initial-mesh
marker untouched; for a drained entry whose coordinate is not loaded, one
warning is counted and no entity is modified on its account. The nodup
hypotheses are the `HashMap` key-uniqueness invariants of
`queued_block_breaks` and `LoadedChunks`. `set_block` itself is modelled
from the spec (see its definition). -/
theorem handle_chunk_updates_spec {U : Type} (s : ManagerState U)
    (Hq : (s.queued_block_breaks.map Prod.fst).Nodup)
    (He : (s.loaded.map Prod.snd).Nodup) :
    (handle_chunk_updates s).queued_block_breaks = [] ∧
    (handle_chunk_updates s).loaded = s.loaded ∧
    (∀ coord blocks eid, (coord, blocks) ∈ s.queued_block_breaks →
      lookupCoord s.loaded coord = some eid →
      (((handle_chunk_updates s).ents eid).requiresMesh = true ∧
       ((handle_chunk_updates s).ents eid).isInitial = (s.ents eid).isInitial ∧
       ((handle_chunk_updates s).ents eid).chunk =
         blocks.foldl (fun ch b => ch.set_block b BlockType.Air)
           ((s.ents eid).chunk) ∧
       (∀ p ∈ blocks, Chunk.is_within_bounds p = true →
         ((handle_chunk_updates s).ents eid).chunk.blocks p
           = BlockType.Air))) ∧
    ((handle_chunk_updates s).warnings = s.warnings +
      s.queued_block_breaks.countP
        (fun e => (lookupCoord s.loaded e.1).isNone)) ∧
    (∀ eid,
      (∀ e ∈ s.queued_block_breaks, lookupCoord s.loaded e.1 ≠ some eid) →
      (handle_chunk_updates s).ents eid = s.ents eid) := by
  refine ⟨rfl, rfl, ?_, ?_, ?_⟩
  · intro coord blocks eid hmem hlook
    obtain ⟨h1, h2⟩ := drainBreaks_target s.loaded He s.queued_block_breaks
      s.ents s.warnings [] coord blocks eid Hq hmem hlook
    have hfin : (handle_chunk_updates s).ents eid =
        { s.ents eid with
          chunk := blocks.foldl (fun ch b => ch.set_block b BlockType.Air)
            ((s.ents eid).chunk)
          requiresMesh := true } := by
      show flagAll _ _ eid = _
      rw [flagAll_at, if_pos h2, h1]
    refine ⟨?_, ?_, ?_, ?_⟩
    · rw [hfin]
    · rw [hfin]
    · rw [hfin]
    · intro p hpmem hpwb
      rw [hfin]
      exact foldl_set_block_air blocks _ p hpmem hpwb
  · show (drainBreaks s.loaded s.queued_block_breaks s.ents s.warnings []).2.1
      = _
    exact drainBreaks_warnings s.loaded s.queued_block_breaks s.ents
      s.warnings []
  · intro eid hno
    obtain ⟨h1, h2⟩ := drainBreaks_untargeted s.loaded s.queued_block_breaks
      s.ents s.warnings [] eid hno
    have hnotin : eid ∉
        (drainBreaks s.loaded s.queued_block_breaks s.ents
          s.warnings []).2.2 := by
      intro hcon
      simpa using h2.mp hcon
    show flagAll _ _ eid = _
    rw [flagAll_at, if_neg hnotin, h1]

/-- C7 witness: in the sample manager state the entry at the origin is
applied (entity 5 is re-flagged, its initial marker kept, and the queued
position is Air) while the entry at `(9,9,9)` is counted as a warning. -/
theorem handle_chunk_updates_spec_witness :
    (handle_chunk_updates sampleManagerState).queued_block_breaks = [] ∧
    ((handle_chunk_updates sampleManagerState).ents 5).requiresMesh = true ∧
    ((handle_chunk_updates sampleManagerState).ents 5).isInitial =
      (sampleManagerState.ents 5).isInitial ∧
    ((handle_chunk_updates sampleManagerState).ents 5).chunk.blocks ⟨1, 2, 3⟩
      = BlockType.Air ∧
    (handle_chunk_updates sampleManagerState).warnings =
      sampleManagerState.warnings +
        sampleManagerState.queued_block_breaks.countP
          (fun e => (lookupCoord sampleManagerState.loaded e.1).isNone) := by
  have h := handle_chunk_updates_spec sampleManagerState (by decide) (by decide)
  obtain ⟨hq, -, htar, hwarn, -⟩ := h
  obtain ⟨ha, hb, -, hd⟩ := htar ⟨0, 0, 0⟩ [⟨1, 2, 3⟩] 5 (by decide) (by decide)
  exact ⟨hq, ha, hb, hd ⟨1, 2, 3⟩ (by decide) (by decide), hwarn⟩

/-! ## C9 — loaded/generating disjointness over all reachable states -/

set_option maxRecDepth 100000 in
theorem loadOffsets_nodup : loadOffsets.Nodup := by decide

theorem add_left_inj_IVec3 (focus : IVec3) :
    Function.Injective (fun off : IVec3 => focus + off) := by
  intro a b hab
  have hx := congrArg IVec3.x hab
  have hy := congrArg IVec3.y hab
  have hz := congrArg IVec3.z hab
  simp only [IVec3.add_x, IVec3.add_y, IVec3.add_z] at hx hy hz
  apply IVec3.ext_comp <;> omega

theorem chunk_load_dispatched_nodup (focus : IVec3)
    (loaded generating : List IVec3) :
    (chunk_load_dispatched focus loaded generating).Nodup := by
  unfold chunk_load_dispatched
  exact ((loadOffsets_nodup.map (add_left_inj_IVec3 focus)).filter _)

/-- The internal invariant carried through the lifecycle induction. -/
def LifeInv (s : LifeState) : Prop :=
  (∀ c ∈ s.loaded, c ∉ s.generating) ∧
  (∀ c ∈ s.tasks, c ∈ s.generating) ∧
  s.generating.Nodup ∧
  s.tasks.Nodup

theorem lifeInv_preserved {s t : LifeState} (hInv : LifeInv s)
    (hstep : LifeStep s t) : LifeInv t := by
  obtain ⟨I1, I2, I3, I4⟩ := hInv
  cases hstep with
  | load focus s =>
      have hbatch_loaded : ∀ c ∈ dispatchBatch focus s, c ∉ s.loaded :=
        fun c hc => (mem_chunk_load_dispatched.mp hc).2.2.2.2.2.2.1
      have hbatch_gen : ∀ c ∈ dispatchBatch focus s, c ∉ s.generating :=
        fun c hc => (mem_chunk_load_dispatched.mp hc).2.2.2.2.2.2.2
      have hbatch_nd : (dispatchBatch focus s).Nodup :=
        chunk_load_dispatched_nodup focus s.loaded s.generating
      refine ⟨?_, ?_, ?_, ?_⟩
      · intro c hc
        simp only [List.mem_append]
        rintro (hb | hg)
        · exact hbatch_loaded c hb hc
        · exact I1 c hc hg
      · intro c hc
        simp only [List.mem_append] at hc ⊢
        rcases hc with hb | ht
        · exact Or.inl hb
        · exact Or.inr (I2 c ht)
      · exact hbatch_nd.append I3 (fun c hb hg => hbatch_gen c hb hg)
      · refine hbatch_nd.append I4 (fun c hb ht => ?_)
        exact hbatch_gen c hb (I2 c ht)
  | complete c s hc =>
      have hcg : c ∈ s.generating := I2 c hc
      have hcl : c ∉ s.loaded := fun hl => I1 c hl hcg
      refine ⟨?_, ?_, I3.erase c, I4.erase c⟩
      · intro d hd
        unfold insertCoord at hd
        rw [if_neg hcl] at hd
        rcases List.mem_cons.mp hd with rfl | hdl
        · exact I3.not_mem_erase
        · intro hde
          exact I1 d hdl (List.mem_of_mem_erase hde)
      · intro d hd
        have hdt : d ∈ s.tasks := List.mem_of_mem_erase hd
        have hdc : d ≠ c := by
          intro rfl2
          subst rfl2
          exact I4.not_mem_erase hd
        rw [List.Nodup.mem_erase_iff I3]
        exact ⟨hdc, I2 d hdt⟩
  | editDrain s => exact ⟨I1, I2, I3, I4⟩
  | meshGen s => exact ⟨I1, I2, I3, I4⟩
  | unload focus s =>
      refine ⟨?_, I2, I3, I4⟩
      intro d hd
      exact I1 d (List.mem_of_mem_filter hd)

theorem lifeInv_of_reachable {s : LifeState} (h : ReachableLife s) :
    LifeInv s := by
  induction h with
  | init =>
      unfold LifeInv
      refine ⟨?_, ?_, ?_, ?_⟩
      · intro c hc
        cases hc
      · intro c hc
        cases hc
      · exact List.nodup_nil
      · exact List.nodup_nil
  | step _ hstep ih => exact lifeInv_preserved ih hstep

/-- C9: in every state reachable by lifecycle steps from the empty initial
state, no coordinate is simultaneously in the loaded and the generating map,
and a load dispatch never dispatches a coordinate that is already loaded or
generating. -/
theorem lifecycle_no_double_booking (s : LifeState) (h : ReachableLife s) :
    (∀ c ∈ s.loaded, c ∉ s.generating) ∧
    (∀ focus : IVec3, ∀ c ∈ dispatchBatch focus s,
      c ∉ s.loaded ∧ c ∉ s.generating) := by
  refine ⟨(lifeInv_of_reachable h).1, ?_⟩
  intro focus c hc
  exact ⟨(mem_chunk_load_dispatched.mp hc).2.2.2.2.2.2.1,
    (mem_chunk_load_dispatched.mp hc).2.2.2.2.2.2.2⟩

/-- C9 witness: the invariant holds in the state reached by one load
dispatch at the origin. -/
theorem lifecycle_no_double_booking_witness :
    (∀ c ∈ sampleLifeState.loaded, c ∉ sampleLifeState.generating) ∧
    (∀ focus : IVec3, ∀ c ∈ dispatchBatch focus sampleLifeState,
      c ∉ sampleLifeState.loaded ∧ c ∉ sampleLifeState.generating) :=
  lifecycle_no_double_booking sampleLifeState
    (ReachableLife.step ReachableLife.init (LifeStep.load ⟨0, 0, 0⟩ ⟨[], [], []⟩))

end Fineworld
